import Mathlib

/-!
Verification development for the agentic-chat-ui repository.

The embedding models the two subsystems the claims are about:

* the authenticated-session lifecycle (`src/services/auth.service.ts`,
  class `AuthService`): credential storage, `getCurrentUser`,
  `refreshAccessToken`, `setTokens`, `clearTokens`, `getAuthHeader`;
* the streaming-response pipeline (`src/components/ChatWindow.tsx`,
  function `handleSendMessage`): the buffered line decoder, the JSON
  payload handling, and the message-list updates.

Network effects are modelled by a scripted server: each endpoint owns a
list of responses that is consumed in order, and a trace records every
call made (so "how many refresh calls were issued" is a statement about
the trace).  Browser strings are modelled as `List Char`; platform
builtins used by the source (`JSON.parse`, `String.prototype.trim`,
`String.prototype.split`) are given executable models below, each next
to the definition that uses it.
-/

namespace AgenticChatUI

/-! ### Credential store and scripted server (auth.service.ts) -/

/-- The access/refresh pair returned by the login and refresh endpoints
(`Token` in `src/types/auth.ts`). -/
structure Token where
  access_token : String
  refresh_token : String
deriving Repr, DecidableEq

/-- `localStorage` as used by `AuthService`: the two keys `access_token`
and `refresh_token`; `none` models an absent key. -/
structure Store where
  access : Option String
  refresh : Option String
deriving Repr, DecidableEq

/-- Scripted response of `GET /auth/me`. -/
inductive MeResp where
  | ok (user : String)
  | unauthorized
  | otherError
deriving Repr, DecidableEq

/-- Scripted response of `POST /auth/refresh`: success with a new pair,
a non-ok HTTP status, or a network-level rejection (the `catch` path). -/
inductive RefreshResp where
  | ok (t : Token)
  | httpError
  | netThrow
deriving Repr, DecidableEq

/-- Scripted response of `POST /stream`: a readable body delivered as a
list of text chunks, a non-ok HTTP status, a response without a body, or
a network-level rejection. -/
inductive StreamResp where
  | ok (chunks : List (List Char))
  | httpError
  | noBody
  | netThrow
deriving Repr, DecidableEq

/-- The remaining scripted responses of each endpoint. -/
structure Server where
  meResponses : List MeResp
  refreshResponses : List RefreshResp
  streamResponses : List StreamResp
deriving Repr, DecidableEq

/-- Observable trace of the network calls made so far.  `meTokensSent`
records the bearer token attached to each `/auth/me` call;
`streamAuthSent` records the `Authorization` header value (if any)
attached to each `/stream` call. -/
structure Trace where
  meCalls : Nat
  refreshCalls : Nat
  streamCalls : Nat
  meTokensSent : List String
  streamAuthSent : List (Option String)
deriving Repr, DecidableEq

/-- Whole-system state threaded through every modelled operation. -/
structure World where
  store : Store
  server : Server
  trace : Trace
deriving Repr, DecidableEq

/-- `AuthService.setTokens`: writes both keys. -/
def setTokens (t : Token) (_s : Store) : Store :=
  { access := some t.access_token, refresh := some t.refresh_token }

/-- `AuthService.clearTokens`: removes both keys. -/
def clearTokens (_s : Store) : Store :=
  { access := none, refresh := none }

/-- `AuthService.getToken`. -/
def getToken (s : Store) : Option String := s.access

/-- `AuthService.getRefreshToken`. -/
def getRefreshToken (s : Store) : Option String := s.refresh

/-- `AuthService.getAuthHeader`: the `Authorization` header value when a
token is stored, nothing otherwise. -/
def getAuthHeader (s : Store) : Option String :=
  (getToken s).map (fun t => "Bearer " ++ t)

/-- One `fetch` of `GET /auth/me` with bearer token `tok`: pops the next
scripted response and records the call.  `none` means the script is
exhausted (modelled as a network failure by the caller). -/
def fetchMe (tok : String) (w : World) : Option MeResp × World :=
  let tr := { w.trace with
    meCalls := w.trace.meCalls + 1
    meTokensSent := w.trace.meTokensSent ++ [tok] }
  match w.server.meResponses with
  | [] => (none, { w with trace := tr })
  | r :: rest =>
      (some r, { w with server := { w.server with meResponses := rest }, trace := tr })

/-- One `fetch` of `POST /auth/refresh`: pops the next scripted response
and records the call. -/
def popRefresh (w : World) : Option RefreshResp × World :=
  let tr := { w.trace with refreshCalls := w.trace.refreshCalls + 1 }
  match w.server.refreshResponses with
  | [] => (none, { w with trace := tr })
  | r :: rest =>
      (some r, { w with server := { w.server with refreshResponses := rest }, trace := tr })

/-- `AuthService.refreshAccessToken`.  Mirrors the source: returns
`false` at once when no refresh token is stored; otherwise posts to the
refresh endpoint; a non-ok response or a thrown fetch clears both tokens
and returns `false`; a success stores the new pair and returns `true`.
An exhausted script is treated like a thrown fetch (the `catch` path). -/
def refreshAccessToken (w : World) : Bool × World :=
  match getRefreshToken w.store with
  | none => (false, w)
  | some _ =>
    match popRefresh w with
    | (some (.ok t), w₁) => (true, { w₁ with store := setTokens t w₁.store })
    | (some .httpError, w₁) => (false, { w₁ with store := clearTokens w₁.store })
    | (some .netThrow, w₁) => (false, { w₁ with store := clearTokens w₁.store })
    | (none, w₁) => (false, { w₁ with store := clearTokens w₁.store })

/-- Outcome of `AuthService.getCurrentUser`: the resolved user, a thrown
`Error` with its message, or fuel exhaustion of the model (the source
recursion has no bound of its own). -/
inductive AuthResult where
  | ok (user : String)
  | error (msg : String)
  | outOfFuel
deriving Repr, DecidableEq

/-- `AuthService.getCurrentUser`.  Mirrors the source line by line:
no stored token throws `No authentication token`; a 401 response
triggers `refreshAccessToken` and, on success, a recursive call to
itself; any other failure (including a 401 whose refresh failed) throws
`Failed to fetch user`.  The recursion of the source is modelled with
explicit fuel. -/
def getCurrentUser : Nat → World → AuthResult × World
  | 0, w => (.outOfFuel, w)
  | fuel + 1, w =>
    match getToken w.store with
    | none => (.error "No authentication token", w)
    | some tok =>
      match fetchMe tok w with
      | (some (.ok u), w₁) => (.ok u, w₁)
      | (some .unauthorized, w₁) =>
        match refreshAccessToken w₁ with
        | (true, w₂) => getCurrentUser fuel w₂
        | (false, w₂) => (.error "Failed to fetch user", w₂)
      | (some .otherError, w₁) => (.error "Failed to fetch user", w₁)
      | (none, w₁) => (.error "Network error", w₁)

/-! ### JSON model

`handleSendMessage` calls the platform builtin `JSON.parse` on each
payload and then reads `chunk.content` and `chunk.metadata?.finish_reason`
with JavaScript semantics.  The model below is an executable JSON parser
over `List Char` together with the JavaScript value operations the
source uses (truthiness, property access, string coercion).  Numbers are
kept as their lexeme: the source only ever tests them for truthiness or
coerces them to a string. -/

/-- A parsed JSON value. -/
inductive JVal where
  | null
  | bool (b : Bool)
  | num (lexeme : List Char)
  | str (s : List Char)
  | arr (elems : List JVal)
  | obj (fields : List (List Char × JVal))
deriving Repr

/-- The opening brace character (written by code so that no brace occurs
inside a string literal of this file). -/
def lbrace : Char := Char.ofNat 123

/-- The closing brace character. -/
def rbrace : Char := Char.ofNat 125

/-- JSON insignificant whitespace: space, tab, line feed, carriage return. -/
def isJsonWs (c : Char) : Bool :=
  c = ' ' || c = '\t' || c = '\n' || c = '\r'

/-- Drop leading JSON whitespace. -/
def skipWs : List Char → List Char
  | [] => []
  | c :: rest => if isJsonWs c then skipWs rest else c :: rest

/-- Value of a hexadecimal digit. -/
def hexVal (c : Char) : Option Nat :=
  if c.isDigit then some (c.toNat - 48)
  else if 'a' ≤ c && c ≤ 'f' then some (c.toNat - 87)
  else if 'A' ≤ c && c ≤ 'F' then some (c.toNat - 55)
  else none

/-- U+FFFD, used for a lone surrogate escape (JavaScript strings keep
lone surrogates; `Char` cannot, so the model substitutes the
replacement character — no claim depends on lone surrogates). -/
def replacementChar : Char := Char.ofNat 0xFFFD

/-- Parse the rest of a JSON string after the opening quote, handling
the escape sequences of the JSON grammar (including surrogate pairs).
Returns the decoded characters and the input following the closing
quote. -/
def parseStringRest : Nat → List Char → Option (List Char × List Char)
  | 0, _ => none
  | _ + 1, [] => none
  | fuel + 1, c :: rest =>
    if c = '"' then some ([], rest)
    else if c = '\\' then
      match rest with
      | [] => none
      | e :: rest₂ =>
        let cont : Char → List Char → Option (List Char × List Char) :=
          fun ch rem =>
            match parseStringRest fuel rem with
            | some (s, r) => some (ch :: s, r)
            | none => none
        if e = '"' then cont '"' rest₂
        else if e = '\\' then cont '\\' rest₂
        else if e = '/' then cont '/' rest₂
        else if e = 'b' then cont (Char.ofNat 8) rest₂
        else if e = 'f' then cont (Char.ofNat 12) rest₂
        else if e = 'n' then cont '\n' rest₂
        else if e = 'r' then cont '\r' rest₂
        else if e = 't' then cont '\t' rest₂
        else if e = 'u' then
          match rest₂ with
          | h1 :: h2 :: h3 :: h4 :: rest₃ =>
            match hexVal h1, hexVal h2, hexVal h3, hexVal h4 with
            | some a, some b, some c2, some d =>
              let n := ((a * 16 + b) * 16 + c2) * 16 + d
              if 0xD800 ≤ n && n ≤ 0xDBFF then
                match rest₃ with
                | '\\' :: 'u' :: k1 :: k2 :: k3 :: k4 :: rest₄ =>
                  match hexVal k1, hexVal k2, hexVal k3, hexVal k4 with
                  | some a2, some b2, some c3, some d2 =>
                    let m := ((a2 * 16 + b2) * 16 + c3) * 16 + d2
                    if 0xDC00 ≤ m && m ≤ 0xDFFF then
                      cont (Char.ofNat (0x10000 + (n - 0xD800) * 1024 + (m - 0xDC00))) rest₄
                    else cont replacementChar rest₃
                  | _, _, _, _ => cont replacementChar rest₃
                | _ => cont replacementChar rest₃
              else if 0xDC00 ≤ n && n ≤ 0xDFFF then cont replacementChar rest₃
              else cont (Char.ofNat n) rest₃
            | _, _, _, _ => none
          | _ => none
        else none
    else if c.toNat < 0x20 then none
    else
      match parseStringRest fuel rest with
      | some (s, r) => some (c :: s, r)
      | none => none

/-- Take the maximal run of leading decimal digits. -/
def takeDigits : List Char → List Char × List Char
  | [] => ([], [])
  | c :: rest =>
    if c.isDigit then
      let (d, r) := takeDigits rest
      (c :: d, r)
    else ([], c :: rest)

/-- Parse the optional fraction part of a JSON number (returns the
consumed characters; `none` on a dot without digits). -/
def parseFrac (cs : List Char) : Option (List Char × List Char) :=
  match cs with
  | '.' :: r =>
    match takeDigits r with
    | ([], _) => none
    | (d, r₂) => some ('.' :: d, r₂)
  | _ => some ([], cs)

/-- Parse the optional exponent part of a JSON number. -/
def parseExp (cs : List Char) : Option (List Char × List Char) :=
  match cs with
  | [] => some ([], [])
  | e :: r =>
    if e = 'e' || e = 'E' then
      let (sgn, r₁) : List Char × List Char :=
        match r with
        | '+' :: r2 => (['+'], r2)
        | '-' :: r2 => (['-'], r2)
        | _ => ([], r)
      match takeDigits r₁ with
      | ([], _) => none
      | (d, r₂) => some (e :: (sgn ++ d), r₂)
    else some ([], e :: r)

/-- Parse a JSON number (strict grammar: no leading `+`, no leading
zeros, digits required around the dot), returning its lexeme. -/
def parseNum (cs : List Char) : Option (List Char × List Char) :=
  let (neg, cs₁) : List Char × List Char :=
    match cs with
    | '-' :: r => (['-'], r)
    | _ => ([], cs)
  match cs₁ with
  | [] => none
  | c :: rest =>
    if c = '0' then
      match parseFrac rest with
      | none => none
      | some (f, r₁) =>
        match parseExp r₁ with
        | none => none
        | some (ex, r₂) => some (neg ++ ['0'] ++ f ++ ex, r₂)
    else if c.isDigit then
      let (d, r₀) := takeDigits rest
      match parseFrac r₀ with
      | none => none
      | some (f, r₁) =>
        match parseExp r₁ with
        | none => none
        | some (ex, r₂) => some (neg ++ (c :: d) ++ f ++ ex, r₂)
    else none

mutual

/-- Parse one JSON value (leading whitespace allowed), returning it and
the unconsumed input. -/
def parseVal : Nat → List Char → Option (JVal × List Char)
  | 0, _ => none
  | fuel + 1, cs =>
    match skipWs cs with
    | [] => none
    | c :: rest =>
      if c = 'n' then
        match rest with
        | 'u' :: 'l' :: 'l' :: r => some (.null, r)
        | _ => none
      else if c = 't' then
        match rest with
        | 'r' :: 'u' :: 'e' :: r => some (.bool true, r)
        | _ => none
      else if c = 'f' then
        match rest with
        | 'a' :: 'l' :: 's' :: 'e' :: r => some (.bool false, r)
        | _ => none
      else if c = '"' then
        match parseStringRest (rest.length + 1) rest with
        | some (s, r) => some (.str s, r)
        | none => none
      else if c = '-' || c.isDigit then
        match parseNum (c :: rest) with
        | some (lex, r) => some (.num lex, r)
        | none => none
      else if c = '[' then
        match skipWs rest with
        | ']' :: r => some (.arr [], r)
        | _ => parseElems fuel rest []
      else if c = lbrace then
        match skipWs rest with
        | [] => none
        | c2 :: r =>
          if c2 = rbrace then some (.obj [], r)
          else parseFields fuel rest []
      else none

/-- Parse the elements of a non-empty JSON array, accumulating them. -/
def parseElems : Nat → List Char → List JVal → Option (JVal × List Char)
  | 0, _, _ => none
  | fuel + 1, cs, acc =>
    match parseVal fuel cs with
    | none => none
    | some (v, r) =>
      match skipWs r with
      | ',' :: r₂ => parseElems fuel r₂ (acc ++ [v])
      | ']' :: r₂ => some (.arr (acc ++ [v]), r₂)
      | _ => none

/-- Parse the members of a non-empty JSON object, accumulating them. -/
def parseFields : Nat → List Char → List (List Char × JVal) → Option (JVal × List Char)
  | 0, _, _ => none
  | fuel + 1, cs, acc =>
    match skipWs cs with
    | '"' :: r =>
      match parseStringRest (r.length + 1) r with
      | none => none
      | some (k, r₁) =>
        match skipWs r₁ with
        | ':' :: r₂ =>
          match parseVal fuel r₂ with
          | none => none
          | some (v, r₃) =>
            match skipWs r₃ with
            | ',' :: r₄ => parseFields fuel r₄ (acc ++ [(k, v)])
            | c4 :: r₄ =>
              if c4 = rbrace then some (.obj (acc ++ [(k, v)]), r₄)
              else none
            | [] => none
        | _ => none
    | _ => none

end

/-- Model of `JSON.parse`: the whole input must be one JSON value
surrounded by optional whitespace; `none` models a thrown `SyntaxError`. -/
def jsonParse (cs : List Char) : Option JVal :=
  match parseVal (2 * cs.length + 2) cs with
  | some (v, rest) =>
    match skipWs rest with
    | [] => some v
    | _ :: _ => none
  | none => none

/-- Property lookup on the field list of a parsed JSON object: the last
binding of a duplicated key wins, as in `JSON.parse`. -/
def lookupField (fields : List (List Char × JVal)) (k : List Char) : Option JVal :=
  match fields with
  | [] => none
  | (k₂, v) :: rest =>
    match lookupField rest k with
    | some v₂ => some v₂
    | none => if k₂ = k then some v else none

/-- JavaScript property access `v.k` for a non-null value: `none` models
`undefined` (any property of a primitive, or a missing key). -/
def getField : JVal → List Char → Option JVal
  | .obj fields, k => lookupField fields k
  | _, _ => none

/-- JavaScript optional chaining `v?.k`: `undefined` or `null` on the
left gives `undefined` without a property access. -/
def optChainField : Option JVal → List Char → Option JVal
  | none, _ => none
  | some .null, _ => none
  | some v, k => getField v k

/-- The mantissa digits of a number lexeme (sign, dot and exponent
removed). -/
def mantissaDigits (lex : List Char) : List Char :=
  (lex.takeWhile (fun c => !(c = 'e' || c = 'E'))).filter Char.isDigit

/-- Whether a JSON number lexeme denotes zero. -/
def numIsZero (lex : List Char) : Bool :=
  (mantissaDigits lex).all (fun c => c = '0')

/-- JavaScript truthiness of a value (`none` is `undefined`). -/
def truthy : Option JVal → Bool
  | none => false
  | some .null => false
  | some (.bool b) => b
  | some (.num lex) => !numIsZero lex
  | some (.str s) => !s.isEmpty
  | some (.arr _) => true
  | some (.obj _) => true

mutual

/-- JavaScript string coercion of a value, as performed by
`msg.content + chunk.content`.  Number formatting keeps the lexeme (a
simplification of float formatting; no claim depends on it). -/
def jsToString : JVal → List Char
  | .null => "null".data
  | .bool true => "true".data
  | .bool false => "false".data
  | .num lex => lex
  | .str s => s
  | .arr vs => jsToStringElems vs
  | .obj _ => "[object Object]".data

/-- `Array.prototype.toString`: elements joined with commas, `null`
elements rendered empty. -/
def jsToStringElems : List JVal → List Char
  | [] => []
  | [.null] => []
  | [v] => jsToString v
  | .null :: rest => ',' :: jsToStringElems rest
  | v :: rest => jsToString v ++ ',' :: jsToStringElems rest

end

/-! ### Stream decoder (handleSendMessage in ChatWindow.tsx)

The reading loop of `handleSendMessage`:

  let buffer = ,
  while true:
    read chunk, break on done
    buffer += decode(chunk); lines = buffer.split newline; buffer = lines.pop()
    for line in lines:
      if line starts with the marker `data: `:
        data = line.slice(6).trim()
        if data:
          try: chunk = JSON.parse(data)
               if chunk.content and not chunk.metadata?.finish_reason:
                 append chunk.content to the ai message
          catch: append data to the ai message

Chunks are modelled at the code-point level: `TextDecoder.decode` with
streaming carries partial UTF-8 sequences across reads, so a byte-level
split never splits a code point in the decoded text. -/

/-- The wire marker `data: ` (the `line.startsWith` test). -/
def marker : List Char := "data: ".data

/-- The whitespace class of `String.prototype.trim` (ECMAScript
WhiteSpace and LineTerminator code points). -/
def isJsWhitespace (c : Char) : Bool :=
  let n := c.toNat
  n = 9 || n = 10 || n = 11 || n = 12 || n = 13 || n = 32 ||
  n = 0xA0 || n = 0x1680 || (0x2000 ≤ n && n ≤ 0x200A) ||
  n = 0x2028 || n = 0x2029 || n = 0x202F || n = 0x205F || n = 0x3000 || n = 0xFEFF

/-- Model of `String.prototype.trim`. -/
def jsTrim (cs : List Char) : List Char :=
  ((cs.dropWhile isJsWhitespace).reverse.dropWhile isJsWhitespace).reverse

/-- The delta text produced by a trimmed, non-empty payload `data`.

* `JSON.parse` throws → the `catch` appends `data` itself;
* the parse yields `null` → `chunk.content` throws a `TypeError`,
  caught by the same `catch`, which appends `data`;
* otherwise the text `chunk.content` (coerced) is appended exactly when
  `chunk.content` is truthy and `chunk.metadata?.finish_reason` is not. -/
def dataDelta (data : List Char) : Option (List Char) :=
  match jsonParse data with
  | none => some data
  | some .null => some data
  | some chunk =>
    let content := getField chunk ("content".data)
    if truthy content then
      if truthy (optChainField (getField chunk ("metadata".data)) ("finish_reason".data)) then
        none
      else
        some (jsToString (content.getD .null))
    else none

/-- The delta text (if any) produced by one complete line of the
stream: lines without the marker are ignored; the payload after the
marker is trimmed; an empty trimmed payload is ignored. -/
def lineDelta (line : List Char) : Option (List Char) :=
  if marker.isPrefixOf line then
    let data := jsTrim (line.drop 6)
    if data.isEmpty then none else dataDelta data
  else none

/-- Model of `buffer.split(newline)` (JavaScript `String.prototype.split`
with a one-character separator): always returns at least one part, the
parts never contain the separator. -/
def splitNl : List Char → List (List Char)
  | [] => [[]]
  | c :: rest =>
    if c = '\n' then [] :: splitNl rest
    else
      match splitNl rest with
      | [] => [[c]]
      | l :: ls => (c :: l) :: ls

/-- State of the reading loop: the carry-over buffer and the deltas
emitted so far. -/
structure DecState where
  buffer : List Char
  deltas : List (List Char)
deriving Repr, DecidableEq

/-- One iteration of the reading loop on one received chunk: the chunk
is appended to the buffer, the buffer is split on newlines, the last
part (`lines.pop()`) becomes the new buffer, and each complete line is
processed. -/
def processChunk (st : DecState) (chunk : List Char) : DecState :=
  let parts := splitNl (st.buffer ++ chunk)
  { buffer := (parts.getLast?).getD []
    deltas := st.deltas ++ parts.dropLast.filterMap lineDelta }

/-- The whole reading loop over a list of received chunks (the carry
buffer left at end of stream is discarded, as in the source). -/
def streamState (chunks : List (List Char)) : DecState :=
  chunks.foldl processChunk { buffer := [], deltas := [] }

/-- The ordered sequence of content deltas produced by the loop. -/
def streamDeltas (chunks : List (List Char)) : List (List Char) :=
  (streamState chunks).deltas

/-! ### Transcript and the full send handler -/

/-- A `ChatMessage` of `src/types/chat.ts` as used by `ChatWindow`:
`type` is the string `human` or `ai`. -/
structure ChatMessage where
  id : String
  type : String
  content : List Char
deriving Repr, DecidableEq

/-- The `setMessages(prev => prev.map ...)` update applying one delta:
every message whose id is the addressed assistant id gets the delta
appended to its content; all other messages are returned unchanged. -/
def appendToMsg (aid : String) (d : List Char) (msgs : List ChatMessage) : List ChatMessage :=
  msgs.map (fun m => if m.id = aid then { m with content := m.content ++ d } else m)

/-- Processing of one complete line inside the reading loop: the
message list is updated exactly when the line yields a delta. -/
def processLine (aid : String) (msgs : List ChatMessage) (line : List Char) : List ChatMessage :=
  match lineDelta line with
  | some d => appendToMsg aid d msgs
  | none => msgs

/-- State of the reading loop acting on the transcript. -/
structure LoopState where
  buffer : List Char
  messages : List ChatMessage
deriving Repr, DecidableEq

/-- One iteration of the reading loop acting on the transcript. -/
def readChunk (aid : String) (st : LoopState) (chunk : List Char) : LoopState :=
  let parts := splitNl (st.buffer ++ chunk)
  { buffer := (parts.getLast?).getD []
    messages := parts.dropLast.foldl (processLine aid) st.messages }

/-- The whole reading loop of `handleSendMessage` acting on the
transcript. -/
def runLoop (aid : String) (chunks : List (List Char)) (msgs : List ChatMessage) : List ChatMessage :=
  (chunks.foldl (readChunk aid) { buffer := [], messages := msgs }).messages

/-- One `fetch` of `POST /stream`: pops the next scripted response and
records the call together with the `Authorization` header attached via
`AuthService.getAuthHeader`. -/
def popStream (w : World) : Option StreamResp × World :=
  let tr := { w.trace with
    streamCalls := w.trace.streamCalls + 1
    streamAuthSent := w.trace.streamAuthSent ++ [getAuthHeader w.store] }
  match w.server.streamResponses with
  | [] => (none, { w with trace := tr })
  | r :: rest =>
      (some r, { w with server := { w.server with streamResponses := rest }, trace := tr })

/-- `handleSendMessage` of `ChatWindow.tsx`.  The user message and the
empty assistant message are appended (ids `uid`, `aid` stand for the
generated random ids), the stream request is issued once with the
current auth header, and on a readable body the reading loop runs; a
non-ok response, a missing body or a thrown fetch lands in the `catch`
block, which only clears the two boolean flags — the function issues no
refresh call and no second stream request in any case. -/
def handleSendMessage (uid aid : String) (content : List Char)
    (msgs : List ChatMessage) (w : World) : List ChatMessage × World :=
  let msgs₂ := (msgs ++ [{ id := uid, type := "human", content := content }]) ++
    [{ id := aid, type := "ai", content := [] }]
  match popStream w with
  | (some (.ok chunks), w₁) => (runLoop aid chunks msgs₂, w₁)
  | (some .httpError, w₁) => (msgs₂, w₁)
  | (some .noBody, w₁) => (msgs₂, w₁)
  | (some .netThrow, w₁) => (msgs₂, w₁)
  | (none, w₁) => (msgs₂, w₁)

/-- The content of the first message with the given id (`undefined` when
absent), as a renderer keyed on message ids would read it. -/
def contentOf (mid : String) (msgs : List ChatMessage) : Option (List Char) :=
  (msgs.find? (fun m => m.id = mid)).map (fun m => m.content)

/-- Prepend a carry to the first part of a split (specification device
for `splitNl` of a concatenation). -/
def consFirst (x : List Char) : List (List Char) → List (List Char)
  | [] => []
  | l :: ls => (x ++ l) :: ls

/-- Apply a list of deltas to the transcript in order (the cumulative
effect of the `setMessages` updates of the reading loop). -/
def applyDeltas (aid : String) (msgs : List ChatMessage) (ds : List (List Char)) :
    List ChatMessage :=
  ds.foldl (fun ms d => appendToMsg aid d ms) msgs

/-- Forget the (mutable) content of a message, keeping id and role. -/
def eraseContent (m : ChatMessage) : ChatMessage :=
  { m with content := [] }

/-- `n` invocations of `refreshAccessToken`, each run to completion.
The class keeps no in-flight-refresh state whatsoever (no shared pending
promise), so every invocation that finds a stored refresh token issues
its own network call; the completion order of the invocations does not
affect how many calls are made. -/
def runRefreshN : Nat → World → World
  | 0, w => w
  | n + 1, w => runRefreshN n (refreshAccessToken w).2

/-! ### Lemmas about the line splitter -/

theorem splitNl_ne_nil (cs : List Char) : splitNl cs ≠ [] := by
  induction cs with
  | nil => simp [splitNl]
  | cons c rest ih =>
    simp only [splitNl]
    split
    · simp
    · cases h : splitNl rest <;> simp [h]

theorem not_newline_mem_splitNl (cs : List Char) :
    ∀ l ∈ splitNl cs, '\n' ∉ l := by
  induction cs with
  | nil =>
    intro l hl
    simp [splitNl] at hl
    simp [hl]
  | cons c rest ih =>
    intro l hl
    simp only [splitNl] at hl
    by_cases hc : c = '\n'
    · rw [if_pos hc] at hl
      rcases List.mem_cons.mp hl with rfl | h
      · simp
      · exact ih l h
    · rw [if_neg hc] at hl
      cases h : splitNl rest with
      | nil => exact absurd h (splitNl_ne_nil rest)
      | cons y ys =>
        rw [h] at hl
        rcases List.mem_cons.mp hl with rfl | hmem
        · intro hmem2
          rcases List.mem_cons.mp hmem2 with heq | h2
          · exact hc heq.symm
          · exact ih y (h ▸ List.mem_cons_self y ys) h2
        · exact ih l (h ▸ List.mem_cons.mpr (Or.inr hmem))

theorem splitNl_eq_single (cs : List Char) (h : '\n' ∉ cs) : splitNl cs = [cs] := by
  induction cs with
  | nil => simp [splitNl]
  | cons c rest ih =>
    have hc : c ≠ '\n' := fun e => h (e ▸ List.mem_cons_self c rest)
    have hrest : '\n' ∉ rest := fun e => h (List.mem_cons.mpr (Or.inr e))
    simp only [splitNl, if_neg hc, ih hrest]

theorem consFirst_ne_nil (x : List Char) (ls : List (List Char)) (h : ls ≠ []) :
    consFirst x ls ≠ [] := by
  cases ls with
  | nil => exact absurd rfl h
  | cons l ls => simp [consFirst]

/-- Splitting a concatenation: the completed parts of `a`, then the
split of `b` with the trailing part of `a` carried onto its first
part. -/
theorem splitNl_cons (c : Char) (x : List Char) :
    splitNl (c :: x) =
      if c = '\n' then [] :: splitNl x
      else
        match splitNl x with
        | [] => [[c]]
        | l :: ls => (c :: l) :: ls := rfl

/-- Splitting a concatenation: the completed parts of `a`, then the
split of `b` with the trailing part of `a` carried onto its first
part. -/
theorem splitNl_append (a b : List Char) :
    splitNl (a ++ b) =
      (splitNl a).dropLast ++ consFirst (((splitNl a).getLast?).getD []) (splitNl b) := by
  induction a with
  | nil =>
    cases h : splitNl b with
    | nil => exact absurd h (splitNl_ne_nil b)
    | cons l ls => simp [splitNl, consFirst, h]
  | cons c a ih =>
    rw [List.cons_append, splitNl_cons c (a ++ b), splitNl_cons c a, ih]
    by_cases hc : c = '\n'
    · rw [if_pos hc, if_pos hc]
      cases hA : splitNl a with
      | nil => exact absurd hA (splitNl_ne_nil a)
      | cons y ys => simp [hA]
    · rw [if_neg hc, if_neg hc]
      cases hA : splitNl a with
      | nil => exact absurd hA (splitNl_ne_nil a)
      | cons y ys =>
        cases ys with
        | nil =>
          cases hB : splitNl b with
          | nil => exact absurd hB (splitNl_ne_nil b)
          | cons z zs => simp [hA, hB, consFirst]
        | cons y₂ ys₂ => simp [hA, consFirst]

/-! ### The reading loop is invariant under re-chunking -/

theorem trailing_no_newline (cs : List Char) :
    '\n' ∉ ((splitNl cs).getLast?).getD [] := by
  cases h : (splitNl cs).getLast? with
  | none => simp
  | some l =>
    simpa using not_newline_mem_splitNl cs l (List.mem_of_mem_getLast? (by simp [h]))

theorem processChunk_nil (st : DecState) (h : '\n' ∉ st.buffer) :
    processChunk st [] = st := by
  simp [processChunk, splitNl_eq_single st.buffer h]

/-- Processing two chunks one after the other is processing their
concatenation: the step function of the reading loop absorbs chunk
boundaries. -/
theorem processChunk_append (st : DecState) (a b : List Char) :
    processChunk (processChunk st a) b = processChunk st (a ++ b) := by
  have htr := trailing_no_newline (st.buffer ++ a)
  have hZ : splitNl ((((splitNl (st.buffer ++ a)).getLast?).getD []) ++ b) =
      consFirst (((splitNl (st.buffer ++ a)).getLast?).getD []) (splitNl b) := by
    rw [splitNl_append, splitNl_eq_single _ htr]
    simp
  have hW : splitNl (st.buffer ++ (a ++ b)) =
      (splitNl (st.buffer ++ a)).dropLast ++
        consFirst (((splitNl (st.buffer ++ a)).getLast?).getD []) (splitNl b) := by
    rw [← List.append_assoc, splitNl_append]
  have hne : consFirst (((splitNl (st.buffer ++ a)).getLast?).getD []) (splitNl b) ≠ [] :=
    consFirst_ne_nil _ _ (splitNl_ne_nil b)
  simp only [processChunk, hZ, hW, DecState.mk.injEq]
  constructor
  · rw [List.getLast?_append_of_ne_nil _ hne]
  · rw [List.dropLast_append_of_ne_nil _ hne, List.filterMap_append, List.append_assoc]

/-- The whole reading loop equals one pass over the concatenated
stream. -/
theorem foldl_processChunk (chunks : List (List Char)) (st : DecState)
    (h : '\n' ∉ st.buffer) :
    chunks.foldl processChunk st = processChunk st chunks.flatten := by
  induction chunks generalizing st with
  | nil => simpa using (processChunk_nil st h).symm
  | cons c cs ih =>
    have hb : '\n' ∉ (processChunk st c).buffer := trailing_no_newline (st.buffer ++ c)
    calc (c :: cs).foldl processChunk st = cs.foldl processChunk (processChunk st c) := rfl
      _ = processChunk (processChunk st c) cs.flatten := ih _ hb
      _ = processChunk st (c ++ cs.flatten) := processChunk_append st c cs.flatten
      _ = processChunk st (c :: cs).flatten := by simp

/-! ### From the loop on the transcript to the delta sequence -/

theorem foldl_processLine (aid : String) (lines : List (List Char)) :
    ∀ msgs : List ChatMessage,
      lines.foldl (processLine aid) msgs = applyDeltas aid msgs (lines.filterMap lineDelta) := by
  induction lines with
  | nil => intro msgs; rfl
  | cons l ls ih =>
    intro msgs
    cases h : lineDelta l with
    | none => simp [List.foldl_cons, processLine, h, ih, List.filterMap_cons]
    | some d => simp [List.foldl_cons, processLine, h, ih, List.filterMap_cons, applyDeltas]

theorem applyDeltas_append (aid : String) (msgs : List ChatMessage) (x y : List (List Char)) :
    applyDeltas aid msgs (x ++ y) = applyDeltas aid (applyDeltas aid msgs x) y := by
  simp [applyDeltas, List.foldl_append]

/-- The loop acting on the transcript simulates the loop producing the
delta sequence: same carry buffer, and the transcript is the base with
the produced deltas applied. -/
theorem readChunk_sim (aid : String) (chunks : List (List Char)) :
    ∀ (ls : LoopState) (ds : DecState) (base : List ChatMessage),
      ls.buffer = ds.buffer → ls.messages = applyDeltas aid base ds.deltas →
      (chunks.foldl (readChunk aid) ls).buffer = (chunks.foldl processChunk ds).buffer ∧
      (chunks.foldl (readChunk aid) ls).messages =
        applyDeltas aid base (chunks.foldl processChunk ds).deltas := by
  induction chunks with
  | nil => intro ls ds base h1 h2; exact ⟨h1, h2⟩
  | cons c cs ih =>
    intro ls ds base h1 h2
    have hb : (readChunk aid ls c).buffer = (processChunk ds c).buffer := by
      simp [readChunk, processChunk, h1]
    have hm : (readChunk aid ls c).messages = applyDeltas aid base (processChunk ds c).deltas := by
      simp only [readChunk, processChunk, h1, h2]
      rw [foldl_processLine, applyDeltas_append]
    exact ih (readChunk aid ls c) (processChunk ds c) base hb hm

/-- The reading loop of `handleSendMessage` equals applying the delta
sequence of the stream to the initial transcript. -/
theorem runLoop_eq_applyDeltas (aid : String) (chunks : List (List Char))
    (msgs : List ChatMessage) :
    runLoop aid chunks msgs = applyDeltas aid msgs (streamDeltas chunks) := by
  have h := readChunk_sim aid chunks
    { buffer := [], messages := msgs } { buffer := [], deltas := [] } msgs rfl rfl
  exact h.2

/-! ### Structure preservation of the transcript updates -/

theorem appendToMsg_cons (aid : String) (d : List Char) (m : ChatMessage)
    (ms : List ChatMessage) :
    appendToMsg aid d (m :: ms) =
      (if m.id = aid then { m with content := m.content ++ d } else m) :: appendToMsg aid d ms := rfl

theorem appendToMsg_eraseContent (aid : String) (d : List Char) (msgs : List ChatMessage) :
    (appendToMsg aid d msgs).map eraseContent = msgs.map eraseContent := by
  induction msgs with
  | nil => rfl
  | cons m ms ih =>
    rw [appendToMsg_cons, List.map_cons, List.map_cons, ih]
    by_cases h : m.id = aid <;> simp [h, eraseContent]

theorem appendToMsg_filter_other (aid : String) (d : List Char) (msgs : List ChatMessage) :
    (appendToMsg aid d msgs).filter (fun m => m.id != aid) =
      msgs.filter (fun m => m.id != aid) := by
  induction msgs with
  | nil => rfl
  | cons m ms ih =>
    rw [appendToMsg_cons, List.filter_cons, List.filter_cons]
    by_cases h : m.id = aid <;> simp [h, ih]

theorem applyDeltas_eraseContent (aid : String) (ds : List (List Char)) :
    ∀ msgs : List ChatMessage,
      (applyDeltas aid msgs ds).map eraseContent = msgs.map eraseContent := by
  induction ds with
  | nil => intro msgs; rfl
  | cons d ds ih =>
    intro msgs
    have step : applyDeltas aid msgs (d :: ds) = applyDeltas aid (appendToMsg aid d msgs) ds := rfl
    rw [step, ih (appendToMsg aid d msgs), appendToMsg_eraseContent]

theorem applyDeltas_filter_other (aid : String) (ds : List (List Char)) :
    ∀ msgs : List ChatMessage,
      (applyDeltas aid msgs ds).filter (fun m => m.id != aid) =
        msgs.filter (fun m => m.id != aid) := by
  induction ds with
  | nil => intro msgs; rfl
  | cons d ds ih =>
    intro msgs
    have step : applyDeltas aid msgs (d :: ds) = applyDeltas aid (appendToMsg aid d msgs) ds := rfl
    rw [step, ih (appendToMsg aid d msgs), appendToMsg_filter_other]

theorem appendToMsg_no_match (aid : String) (d : List Char) (msgs : List ChatMessage)
    (h : ∀ m ∈ msgs, m.id ≠ aid) : appendToMsg aid d msgs = msgs := by
  induction msgs with
  | nil => rfl
  | cons m ms ih =>
    rw [appendToMsg_cons, if_neg (h m (List.mem_cons_self m ms))]
    rw [ih (fun x hx => h x (List.mem_cons.mpr (Or.inr hx)))]

/-- Applying a delta sequence to a transcript ending in the addressed
message appends the concatenation of the deltas to that message and
leaves everything else unchanged. -/
theorem applyDeltas_concat_content (aid : String) (ds : List (List Char)) :
    ∀ (xs : List ChatMessage) (a : ChatMessage), (∀ m ∈ xs, m.id ≠ aid) → a.id = aid →
      applyDeltas aid (xs ++ [a]) ds =
        xs ++ [{ a with content := a.content ++ ds.flatten }] := by
  induction ds with
  | nil =>
    intro xs a hxs ha
    simp [applyDeltas]
  | cons d ds ih =>
    intro xs a hxs ha
    have step : applyDeltas aid (xs ++ [a]) (d :: ds) =
        applyDeltas aid (appendToMsg aid d (xs ++ [a])) ds := rfl
    have h2 : appendToMsg aid d (xs ++ [a]) = xs ++ [{ a with content := a.content ++ d }] := by
      unfold appendToMsg
      rw [List.map_append]
      rw [show (xs.map fun m => if m.id = aid then { m with content := m.content ++ d } else m) =
        appendToMsg aid d xs from rfl]
      rw [appendToMsg_no_match aid d xs hxs]
      simp [ha]
    rw [step, h2,
      ih xs { id := a.id, type := a.type, content := a.content ++ d } hxs ha]
    simp [List.append_assoc]

theorem contentOf_append_last (aid : String) (xs : List ChatMessage) (a : ChatMessage)
    (hxs : ∀ m ∈ xs, m.id ≠ aid) (ha : a.id = aid) :
    contentOf aid (xs ++ [a]) = some a.content := by
  unfold contentOf
  rw [List.find?_append]
  have h1 : xs.find? (fun m => m.id = aid) = none := by
    rw [List.find?_eq_none]
    intro m hm
    simpa using hxs m hm
  simp [h1, List.find?_cons, ha]

/-- The payload-to-delta behavior of a complete marker-prefixed line:
the remainder of the line after the marker is trimmed; an empty trimmed
payload is ignored, otherwise it is handed to the payload handler. -/
theorem lineDelta_marker (p : List Char) :
    lineDelta (marker ++ p) =
      if (jsTrim p).isEmpty then none else dataDelta (jsTrim p) := by
  have hpre : marker.isPrefixOf (marker ++ p) = true := by
    rw [List.isPrefixOf_iff_prefix]
    exact List.prefix_append marker p
  have hdrop : (marker ++ p).drop 6 = p := by
    have h6 : (6 : Nat) = marker.length := rfl
    rw [h6, List.drop_left]
  simp [lineDelta, hpre, hdrop]

/-! ### Claim theorems -/

/-- Claim C1, counterexample.  Concrete run refuting "at most one
refresh per call": the scripted `/auth/me` endpoint returns 401 twice
and the first refresh succeeds; `getCurrentUser` then issues a second
refresh call (here scripted to fail), so the claimed bound of at most
one refresh call is violated. -/
theorem getCurrentUser_second_401_refreshes_again_cx :
    ((getCurrentUser 3
      ⟨⟨some "tok0", some "ref0"⟩,
        ⟨[.unauthorized, .unauthorized], [.ok ⟨"tok1", "ref1"⟩, .httpError], []⟩,
        ⟨0, 0, 0, [], []⟩⟩).2.trace.refreshCalls = 2 ∧
      ¬ (getCurrentUser 3
        ⟨⟨some "tok0", some "ref0"⟩,
          ⟨[.unauthorized, .unauthorized], [.ok ⟨"tok1", "ref1"⟩, .httpError], []⟩,
          ⟨0, 0, 0, [], []⟩⟩).2.trace.refreshCalls ≤ 1) ∧
    (getCurrentUser 3
      ⟨⟨some "tok0", some "ref0"⟩,
        ⟨[.unauthorized, .unauthorized], [.ok ⟨"tok1", "ref1"⟩, .httpError], []⟩,
        ⟨0, 0, 0, [], []⟩⟩).1 = .error "Failed to fetch user" := by
  exact ⟨⟨rfl, by decide⟩, rfl⟩

/-- Claim C1, amended.  `getCurrentUser` performs one refresh attempt
per 401 response, recursing while refreshes succeed: after a 401, a
successful refresh and a second 401, a second refresh call is issued;
the hard failure `Failed to fetch user` is surfaced (with credentials
cleared) only when a refresh attempt fails, and if the second refresh
succeeds the request is simply re-issued again. -/
theorem getCurrentUser_refresh_per_401 (a r u : String) (t t₂ : Token)
    (ss : List StreamResp) (tr : Trace) :
    ((getCurrentUser 3
        ⟨⟨some a, some r⟩, ⟨[.unauthorized, .unauthorized], [.ok t, .httpError], ss⟩, tr⟩).1
      = .error "Failed to fetch user" ∧
     (getCurrentUser 3
        ⟨⟨some a, some r⟩, ⟨[.unauthorized, .unauthorized], [.ok t, .httpError], ss⟩, tr⟩).2.trace.refreshCalls
      = tr.refreshCalls + 2 ∧
     (getCurrentUser 3
        ⟨⟨some a, some r⟩, ⟨[.unauthorized, .unauthorized], [.ok t, .httpError], ss⟩, tr⟩).2.store
      = ⟨none, none⟩) ∧
    ((getCurrentUser 3
        ⟨⟨some a, some r⟩, ⟨[.unauthorized, .unauthorized, .ok u], [.ok t, .ok t₂], ss⟩, tr⟩).1
      = .ok u ∧
     (getCurrentUser 3
        ⟨⟨some a, some r⟩, ⟨[.unauthorized, .unauthorized, .ok u], [.ok t, .ok t₂], ss⟩, tr⟩).2.trace.refreshCalls
      = tr.refreshCalls + 2) := by
  exact ⟨⟨rfl, rfl, rfl⟩, rfl, rfl⟩

/-- Claim C5, counterexample.  Two invocations of
`refreshAccessToken` — the code's only refresh path, which keeps no
shared in-flight-refresh state — issue two refresh calls, not the
claimed single collapsed one. -/
theorem refreshAccessToken_two_invocations_cx :
    ((runRefreshN 2
      ⟨⟨some "tok0", some "ref0"⟩,
        ⟨[], [.ok ⟨"tok1", "ref1"⟩, .ok ⟨"tok2", "ref2"⟩], []⟩,
        ⟨0, 0, 0, [], []⟩⟩).trace.refreshCalls = 2 ∧
     ¬ (runRefreshN 2
      ⟨⟨some "tok0", some "ref0"⟩,
        ⟨[], [.ok ⟨"tok1", "ref1"⟩, .ok ⟨"tok2", "ref2"⟩], []⟩,
        ⟨0, 0, 0, [], []⟩⟩).trace.refreshCalls = 1) := by
  exact ⟨rfl, by decide⟩

/-- Claim C5, amended.  There is no single-flight collapsing of
refreshes: `n` invocations of `refreshAccessToken` with a stored
refresh token and `n` scripted successful responses issue exactly `n`
refresh calls in total. -/
theorem refreshAccessToken_no_single_flight (n : Nat) (t : Token) :
    ∀ (acc : Option String) (r : String) (mr : List MeResp) (ss : List StreamResp) (tr : Trace),
      (runRefreshN n
        ⟨⟨acc, some r⟩, ⟨mr, List.replicate n (.ok t), ss⟩, tr⟩).trace.refreshCalls
        = tr.refreshCalls + n := by
  induction n with
  | zero => intro acc r mr ss tr; rfl
  | succ n ih =>
    intro acc r mr ss tr
    have step : runRefreshN (n + 1)
        ⟨⟨acc, some r⟩, ⟨mr, List.replicate (n + 1) (.ok t), ss⟩, tr⟩
        = runRefreshN n
          ⟨⟨some t.access_token, some t.refresh_token⟩,
            ⟨mr, List.replicate n (.ok t), ss⟩,
            { tr with refreshCalls := tr.refreshCalls + 1 }⟩ := by
      rw [List.replicate_succ]
      rfl
    rw [step, ih (some t.access_token) t.refresh_token mr ss
      { tr with refreshCalls := tr.refreshCalls + 1 }]
    show tr.refreshCalls + 1 + n = tr.refreshCalls + (n + 1)
    omega

/-- Claim C6.  A 401 followed by a successful refresh and a successful
retry: exactly one refresh call, the original request re-issued exactly
once carrying the new access token, and the success result returned
(the new pair is stored). -/
theorem getCurrentUser_one_refresh_one_retry (a r u : String) (t : Token)
    (ss : List StreamResp) (tr : Trace) :
    (getCurrentUser 2 ⟨⟨some a, some r⟩, ⟨[.unauthorized, .ok u], [.ok t], ss⟩, tr⟩).1
      = .ok u ∧
    (getCurrentUser 2 ⟨⟨some a, some r⟩, ⟨[.unauthorized, .ok u], [.ok t], ss⟩, tr⟩).2.trace.refreshCalls
      = tr.refreshCalls + 1 ∧
    (getCurrentUser 2 ⟨⟨some a, some r⟩, ⟨[.unauthorized, .ok u], [.ok t], ss⟩, tr⟩).2.trace.meCalls
      = tr.meCalls + 1 + 1 ∧
    (getCurrentUser 2 ⟨⟨some a, some r⟩, ⟨[.unauthorized, .ok u], [.ok t], ss⟩, tr⟩).2.trace.meTokensSent
      = tr.meTokensSent ++ [a] ++ [t.access_token] ∧
    (getCurrentUser 2 ⟨⟨some a, some r⟩, ⟨[.unauthorized, .ok u], [.ok t], ss⟩, tr⟩).2.store
      = ⟨some t.access_token, some t.refresh_token⟩ := by
  exact ⟨rfl, rfl, rfl, rfl, rfl⟩

/-- Claim C7.  A failed refresh — whether the endpoint answers with a
non-ok status or the call throws — clears both stored credentials and
returns `false`; consequently a guarded call whose 401 is followed by a
failed refresh ends in the thrown `Failed to fetch user` failure with
the store cleared, never in success. -/
theorem refresh_failure_clears_credentials (acc : Option String) (a r : String)
    (mr : List MeResp) (mrest : List MeResp) (rr : List RefreshResp)
    (ss : List StreamResp) (tr : Trace) :
    refreshAccessToken ⟨⟨acc, some r⟩, ⟨mr, .httpError :: rr, ss⟩, tr⟩
      = (false, ⟨⟨none, none⟩, ⟨mr, rr, ss⟩,
          { tr with refreshCalls := tr.refreshCalls + 1 }⟩) ∧
    refreshAccessToken ⟨⟨acc, some r⟩, ⟨mr, .netThrow :: rr, ss⟩, tr⟩
      = (false, ⟨⟨none, none⟩, ⟨mr, rr, ss⟩,
          { tr with refreshCalls := tr.refreshCalls + 1 }⟩) ∧
    (getCurrentUser 2 ⟨⟨some a, some r⟩, ⟨.unauthorized :: mrest, .httpError :: rr, ss⟩, tr⟩).1
      = .error "Failed to fetch user" ∧
    (getCurrentUser 2 ⟨⟨some a, some r⟩, ⟨.unauthorized :: mrest, .httpError :: rr, ss⟩, tr⟩).2.store
      = ⟨none, none⟩ := by
  exact ⟨rfl, rfl, rfl, rfl⟩

/-- Claim C2.  The decode loop is invariant under re-chunking: any two
chunkings with the same concatenated text produce the identical ordered
delta sequence, so chunk boundaries — including boundaries inside a
marker or inside a JSON payload — never change the output. -/
theorem streamDeltas_chunking_invariant (cs₁ cs₂ : List (List Char))
    (h : cs₁.flatten = cs₂.flatten) : streamDeltas cs₁ = streamDeltas cs₂ := by
  unfold streamDeltas streamState
  rw [foldl_processChunk cs₁ _ (by simp), foldl_processChunk cs₂ _ (by simp), h]

/-- Claim C2, witness: a two-chunk split that cuts through the middle
of a marker gives the same deltas as the unsplit stream. -/
theorem streamDeltas_chunking_invariant_witness :
    (["data: \x7b\"content\":\"Hel\"\x7d\nda".data, "ta: \x7b\"content\":\"lo\"\x7d\n".data].flatten
      = ["data: \x7b\"content\":\"Hel\"\x7d\ndata: \x7b\"content\":\"lo\"\x7d\n".data].flatten) ∧
    streamDeltas ["data: \x7b\"content\":\"Hel\"\x7d\nda".data, "ta: \x7b\"content\":\"lo\"\x7d\n".data]
      = streamDeltas ["data: \x7b\"content\":\"Hel\"\x7d\ndata: \x7b\"content\":\"lo\"\x7d\n".data] ∧
    streamDeltas ["data: \x7b\"content\":\"Hel\"\x7d\ndata: \x7b\"content\":\"lo\"\x7d\n".data]
      = ["Hel".data, "lo".data] :=
  ⟨rfl, streamDeltas_chunking_invariant _ _ rfl, rfl⟩

/-- Claim C3.  For any stream, the content of the assistant message
after the loop is exactly the concatenation, in arrival order, of the
deltas the stream produced (the assistant message starts empty and is
the only message carrying the fresh id `aid`). -/
theorem assistant_content_eq_delta_concat
    (msgs : List ChatMessage) (uid aid : String) (c : List Char)
    (chunks : List (List Char)) (store : Store) (mr : List MeResp)
    (rr : List RefreshResp) (srest : List StreamResp) (tr : Trace)
    (h₁ : ∀ m ∈ msgs, m.id ≠ aid) (h₂ : uid ≠ aid) :
    contentOf aid
      (handleSendMessage uid aid c msgs ⟨store, ⟨mr, rr, .ok chunks :: srest⟩, tr⟩).1
      = some (streamDeltas chunks).flatten := by
  have hred : (handleSendMessage uid aid c msgs ⟨store, ⟨mr, rr, .ok chunks :: srest⟩, tr⟩).1
      = runLoop aid chunks
        ((msgs ++ [{ id := uid, type := "human", content := c }]) ++
          [{ id := aid, type := "ai", content := [] }]) := rfl
  have hxs : ∀ m ∈ msgs ++ [{ id := uid, type := "human", content := c }], m.id ≠ aid := by
    intro m hm
    rcases List.mem_append.mp hm with h | h
    · exact h₁ m h
    · simp only [List.mem_singleton] at h
      subst h
      simpa using h₂
  rw [hred, runLoop_eq_applyDeltas,
    applyDeltas_concat_content aid (streamDeltas chunks) _ _ hxs rfl,
    contentOf_append_last aid _ _ hxs rfl]
  simp

/-- Claim C3, witness: the spec's example stream (deltas `Hel`, `lo`,
then a completion event) ends with assistant content `Hello`. -/
theorem assistant_content_eq_delta_concat_witness :
    contentOf "a"
      (handleSendMessage "u" "a" ("hi".data) []
        ⟨⟨none, none⟩,
          ⟨[], [],
            [.ok ["data: \x7b\"content\":\"Hel\"\x7d\ndata: \x7b\"content\":\"lo\"\x7d\ndata: \x7b\"content\":\"\",\"metadata\":\x7b\"finish_reason\":\"stop\"\x7d\x7d\n".data]]⟩,
          ⟨0, 0, 0, [], []⟩⟩).1
      = some ("Hello".data) := by
  have h := assistant_content_eq_delta_concat [] "u" "a" ("hi".data)
    ["data: \x7b\"content\":\"Hel\"\x7d\ndata: \x7b\"content\":\"lo\"\x7d\ndata: \x7b\"content\":\"\",\"metadata\":\x7b\"finish_reason\":\"stop\"\x7d\x7d\n".data]
    ⟨none, none⟩ [] [] [] ⟨0, 0, 0, [], []⟩ (by simp) (by decide)
  rw [h]
  rfl

/-- Claim C4, counterexample.  Concrete run refuting the
401-refresh-retry contract for the stream request: a refresh token is
stored, the first scripted stream response is an authorization failure
and a successful retry is even scripted next — yet the run issues zero
refresh calls and only one stream request, and ends the turn with the
assistant message still empty. -/
theorem handleSendMessage_401_no_refresh_cx :
    ((handleSendMessage "u1" "a1" ("hi".data) []
        ⟨⟨some "tok0", some "ref0"⟩,
          ⟨[], [.ok ⟨"tok1", "ref1"⟩], [.httpError, .ok ["data: x\n".data]]⟩,
          ⟨0, 0, 0, [], []⟩⟩).2.trace.refreshCalls = 0 ∧
      ¬ (handleSendMessage "u1" "a1" ("hi".data) []
        ⟨⟨some "tok0", some "ref0"⟩,
          ⟨[], [.ok ⟨"tok1", "ref1"⟩], [.httpError, .ok ["data: x\n".data]]⟩,
          ⟨0, 0, 0, [], []⟩⟩).2.trace.refreshCalls = 1) ∧
    (handleSendMessage "u1" "a1" ("hi".data) []
        ⟨⟨some "tok0", some "ref0"⟩,
          ⟨[], [.ok ⟨"tok1", "ref1"⟩], [.httpError, .ok ["data: x\n".data]]⟩,
          ⟨0, 0, 0, [], []⟩⟩).2.trace.streamCalls = 1 ∧
    (handleSendMessage "u1" "a1" ("hi".data) []
        ⟨⟨some "tok0", some "ref0"⟩,
          ⟨[], [.ok ⟨"tok1", "ref1"⟩], [.httpError, .ok ["data: x\n".data]]⟩,
          ⟨0, 0, 0, [], []⟩⟩).1
      = [⟨"u1", "human", "hi".data⟩, ⟨"a1", "ai", []⟩] := by
  exact ⟨⟨rfl, by decide⟩, rfl, rfl⟩

/-- Claim C4, amended.  The stream request carries the current access
credential via `getAuthHeader`, but the component implements no
401-refresh-retry: on an authorization failure the turn simply fails —
no refresh call is made, no second stream request is opened, the stored
credentials are untouched, and the freshly appended assistant message
is left with empty content. -/
theorem handleSendMessage_401_fails_without_refresh
    (uid aid : String) (c : List Char) (msgs : List ChatMessage) (store : Store)
    (mr : List MeResp) (rr : List RefreshResp) (srest : List StreamResp) (tr : Trace) :
    (handleSendMessage uid aid c msgs ⟨store, ⟨mr, rr, .httpError :: srest⟩, tr⟩).1
      = msgs ++ [⟨uid, "human", c⟩] ++ [⟨aid, "ai", []⟩] ∧
    (handleSendMessage uid aid c msgs ⟨store, ⟨mr, rr, .httpError :: srest⟩, tr⟩).2.trace.refreshCalls
      = tr.refreshCalls ∧
    (handleSendMessage uid aid c msgs ⟨store, ⟨mr, rr, .httpError :: srest⟩, tr⟩).2.trace.streamCalls
      = tr.streamCalls + 1 ∧
    (handleSendMessage uid aid c msgs ⟨store, ⟨mr, rr, .httpError :: srest⟩, tr⟩).2.trace.streamAuthSent
      = tr.streamAuthSent ++ [getAuthHeader store] ∧
    (handleSendMessage uid aid c msgs ⟨store, ⟨mr, rr, .httpError :: srest⟩, tr⟩).2.store
      = store := by
  exact ⟨rfl, rfl, rfl, rfl, rfl⟩

/-- Claim C8, counterexample.  The marker-prefixed line `data:  ` (one
space of payload) has a payload that is not valid JSON, yet the decoder
emits nothing for it: the payload trims to empty and the line is
dropped, refuting "the line is never dropped". -/
theorem lineDelta_whitespace_payload_dropped_cx :
    marker.isPrefixOf ("data:  ".data) = true ∧
    jsonParse (("data:  ".data).drop 6) = none ∧
    lineDelta ("data:  ".data) = none := by
  exact ⟨rfl, rfl, rfl⟩

/-- Claim C8, amended.  A marker-prefixed line whose payload trims to a
non-empty string that is not valid JSON emits exactly that trimmed
payload as delta text (never a failure); a payload that trims to empty
emits nothing. -/
theorem lineDelta_invalid_json_emits_trimmed (p : List Char)
    (h₁ : (jsTrim p).isEmpty = false) (h₂ : jsonParse (jsTrim p) = none) :
    lineDelta (marker ++ p) = some (jsTrim p) := by
  rw [lineDelta_marker, if_neg (by simp [h₁])]
  simp [dataDelta, h₂]

/-- Claim C8, witness: the spec's example `data: not-json` yields the
delta `not-json`. -/
theorem lineDelta_invalid_json_emits_trimmed_witness :
    lineDelta ("data: not-json".data) = some ("not-json".data) := by
  have h := lineDelta_invalid_json_emits_trimmed ("not-json".data) rfl rfl
  exact h

/-- Claim C9.  The streaming loop preserves the transcript's length and
order: erasing contents, the message list is unchanged (same ids, same
roles, same order, same length), every message other than the addressed
assistant one is untouched even in content, and the error path of
`handleSendMessage` leaves the appended transcript exactly as it was. -/
theorem streaming_preserves_transcript_order (aid uid : String) (c : List Char)
    (chunks : List (List Char)) (msgs : List ChatMessage) (store : Store)
    (mr : List MeResp) (rr : List RefreshResp) (srest : List StreamResp) (tr : Trace) :
    (runLoop aid chunks msgs).map eraseContent = msgs.map eraseContent ∧
    (runLoop aid chunks msgs).filter (fun m => m.id != aid)
      = msgs.filter (fun m => m.id != aid) ∧
    (handleSendMessage uid aid c msgs ⟨store, ⟨mr, rr, .httpError :: srest⟩, tr⟩).1
      = msgs ++ [⟨uid, "human", c⟩] ++ [⟨aid, "ai", []⟩] := by
  refine ⟨?_, ?_, rfl⟩
  · rw [runLoop_eq_applyDeltas, applyDeltas_eraseContent]
  · rw [runLoop_eq_applyDeltas, applyDeltas_filter_other]

/-- Claim C10.  The payload after the marker is whitespace-trimmed
before any processing: a payload that trims to empty yields no event
and leaves the transcript untouched, and in the non-JSON fallback it is
the trimmed payload — not the raw remainder of the line — that becomes
the delta. -/
theorem payload_trimmed_before_processing (p : List Char) (aid : String)
    (msgs : List ChatMessage) :
    (jsTrim p = [] →
      lineDelta (marker ++ p) = none ∧ processLine aid msgs (marker ++ p) = msgs) ∧
    ((jsTrim p).isEmpty = false → jsonParse (jsTrim p) = none →
      lineDelta (marker ++ p) = some (jsTrim p)) := by
  constructor
  · intro h
    have hl : lineDelta (marker ++ p) = none := by
      rw [lineDelta_marker, h]
      simp
    exact ⟨hl, by simp [processLine, hl]⟩
  · intro h₁ h₂
    rw [lineDelta_marker, if_neg (by simp [h₁])]
    simp [dataDelta, h₂]

/-- Claim C10, witness: a whitespace-only payload produces no event and
no transcript change; a padded non-JSON payload is trimmed before being
emitted. -/
theorem payload_trimmed_before_processing_witness :
    (jsTrim ("\t ".data) = [] ∧ lineDelta ("data: \t ".data) = none ∧
      processLine "a" [] ("data: \t ".data) = []) ∧
    lineDelta ("data:  12x ".data) = some ("12x".data) := by
  have h := payload_trimmed_before_processing ("\t ".data) "a" []
  have h2 := payload_trimmed_before_processing (" 12x ".data) "a" ([] : List ChatMessage)
  exact ⟨⟨rfl, (h.1 rfl).1, (h.1 rfl).2⟩, h2.2 rfl rfl⟩

end AgenticChatUI
